import Mathlib

/-!
Shallow embedding of the multi-stream temporal synchronization core of
`CameraRealSense2.cpp` (rtabmap).

Modelling conventions:
* `double` timestamps and sensor values are modelled as exact rationals (`ℚ`);
  the float cast of the interpolation factor `t` is ignored, so all
  interpolation identities are over the exact real/rational model of the
  arithmetic.
* `std::map<double, V>` (the gyro/accel/pose buffers) is modelled as an
  association list sorted strictly by key; `begin()` is the head, `rbegin()`
  the last element, `lower_bound` a `findIdx`, `erase(begin())` a `tail`.
* The bounded poll loops (`while(maxWaitTimeMs>0 && ...rbegin()->first < stamp
  && waitTry < maxWaitTimeMs)`) re-read a buffer that only producer threads
  mutate; in this sequential embedding the buffer is a fixed value, so the
  loop exits with the buffer unchanged and the post-loop re-check
  `rbegin()->first < stamp` is decided on the same buffer.  The wait budget
  therefore does not appear as a parameter.
* `UWARN` calls are modelled by counting emitted messages per class, so the
  one-shot-latch behaviour (`clockSyncWarningShown_`,
  `imuGlobalSyncWarningShown_`) is observable.
-/

namespace RS2

/-- A 3-component sensor reading (`cv::Vec3f` / `cv::Vec3d`), exact model. -/
abbrev Vec3 : Type := ℚ × ℚ × ℚ

/-- Component-wise linear interpolation `a + t*(b - a)`, the arithmetic of
`CameraRealSense2.cpp` lines 340-342 and 421-423. -/
def lerp3 (t : ℚ) (a b : Vec3) : Vec3 :=
  (a.1 + t * (b.1 - a.1), a.2.1 + t * (b.2.1 - a.2.1), a.2.2 + t * (b.2.2 - a.2.2))

/-- `std::map::insert` with an end hint: ordered insertion by key; on a
duplicate key `std::map::insert` keeps the existing entry. -/
def mapInsert {V : Type} : List (ℚ × V) → ℚ → V → List (ℚ × V)
  | [], k, v => [(k, v)]
  | e :: rest, k, v =>
    if k < e.1 then (k, v) :: e :: rest
    else if k = e.1 then e :: rest
    else e :: mapInsert rest k v

/-- One ingest-callback step for a pose/IMU buffer: insert the sample, then
if the size exceeds 1000 erase `begin()` (the smallest key).  Models
`imu_callback` (lines 157-169) and `pose_callback` (lines 195-199). -/
def ingest {V : Type} (buf : List (ℚ × V)) (k : ℚ) (v : V) : List (ℚ × V) :=
  if 1000 < (mapInsert buf k v).length then (mapInsert buf k v).tail
  else mapInsert buf k v

/-- A whole session of ingest callbacks starting from the empty buffer. -/
def ingestAll {V : Type} (l : List (ℚ × V)) : List (ℚ × V) :=
  l.foldl (fun buf e => ingest buf e.1 e.2) []

/-- `buffer.rbegin()`: the most recent (largest-key) entry.  The source only
evaluates `rbegin()` on non-empty buffers (`getPoseAndIMU` returns early on
empty IMU buffers and skips the pose block on an empty pose buffer); on `[]`
this total model returns the junk value `default`. -/
def lastE {V : Type} [Inhabited V] (buf : List (ℚ × V)) : ℚ × V :=
  buf.getD (buf.length - 1) default

/-- `buffer.lower_bound(s)`: index of the first entry with key `≥ s`
(`buf.length` plays the role of `end()`). -/
def lowerBoundIdx {V : Type} (buf : List (ℚ × V)) (s : ℚ) : Nat :=
  buf.findIdx fun e => decide (s ≤ e.1)

/-- `iterA`: start from `lower_bound` and step back once unless at
`begin()` (lines 322-326). -/
def idxA {V : Type} (buf : List (ℚ × V)) (s : ℚ) : Nat :=
  if lowerBoundIdx buf s = 0 then 0 else lowerBoundIdx buf s - 1

/-- `iterB`: `lower_bound`, stepped back once if it is `end()`
(lines 327-330). -/
def idxB {V : Type} (buf : List (ℚ × V)) (s : ℚ) : Nat :=
  if lowerBoundIdx buf s = buf.length then buf.length - 1 else lowerBoundIdx buf s

/-- The entry at `iterA` (junk default on an out-of-range index, which the
source never dereferences). -/
def entryA {V : Type} [Inhabited V] (buf : List (ℚ × V)) (s : ℚ) : ℚ × V :=
  buf.getD (idxA buf s) default

/-- The entry at `iterB`. -/
def entryB {V : Type} [Inhabited V] (buf : List (ℚ × V)) (s : ℚ) : ℚ × V :=
  buf.getD (idxB buf s) default

/-- Result of one acc/gyro interpolation block: the interpolated value
(`none` = the block made `getPoseAndIMU` return with the IMU left empty),
the updated `imuGlobalSyncWarningShown_` latch, and how many warnings of
each desynchronization message class were emitted during the block. -/
structure VecOut where
  val : Option Vec3
  shown : Bool
  warnSync : Nat
  warnRestamp : Nat

/-- The acc interpolation block of `getPoseAndIMU` (lines 298-377); the gyro
block (lines 379-458) is identical with `gyroBuffer_` in place of
`accBuffer_`.  `gts` is `globalTimeSync_`, `shown` is the
`imuGlobalSyncWarningShown_` latch on entry.

* empty buffer: unreachable (guarded at line 240), modelled as the empty
  result;
* `rbegin()->first < stamp` (still behind after the bounded wait): return
  with the output left empty — on this path the source returns regardless of
  `globalTimeSync_` (lines 310-318); the "after waiting" message is not part
  of the latched desynchronization class and is not counted;
* exact match (`iterA == iterB && stamp == iterA->first`, lines 331-336);
* bracketed: linear interpolation (lines 337-343);
* otherwise the desynchronization branch (lines 344-374): one
  "Are sensors synchronized?" warning gated by the latch; then if
  `globalTimeSync_` is off, one latch-gated "re-stamped" warning, the latch
  is set, and `rbegin()`'s value is returned; if `globalTimeSync_` is on,
  return with the output left empty and the latch unchanged. -/
def interpVec3 (gts shown : Bool) (buf : List (ℚ × Vec3)) (s : ℚ) : VecOut :=
  if buf.isEmpty then ⟨none, shown, 0, 0⟩
  else if (lastE buf).1 < s then ⟨none, shown, 0, 0⟩
  else if idxA buf s = idxB buf s ∧ s = (entryA buf s).1 then
    ⟨some (entryA buf s).2, shown, 0, 0⟩
  else if (entryA buf s).1 ≤ s ∧ s ≤ (entryB buf s).1 then
    ⟨some (lerp3 ((s - (entryA buf s).1) / ((entryB buf s).1 - (entryA buf s).1))
        (entryA buf s).2 (entryB buf s).2), shown, 0, 0⟩
  else if gts then ⟨none, shown, if shown then 0 else 1, 0⟩
  else ⟨some (lastE buf).2, true, if shown then 0 else 1, if shown then 0 else 1⟩

/-- The pose interpolation block of `getPoseAndIMU` (lines 245-296): skipped
on an empty pose buffer; behind-after-wait leaves the pose null; exact match
and bracketed interpolation mirror the IMU blocks with
`Transform::interpolate` (an external collaborator, passed in as `pinterp`)
in place of `lerp3`, and the confidence taken from `iterA`; the out-of-range
warnings (lines 286-293) leave the pose null in every mode and are not
latched. -/
def interpPose {P : Type} [Inhabited P] (pinterp : ℚ → P → P → P)
    (buf : List (ℚ × P × Nat)) (s : ℚ) : Option P × Nat :=
  if buf.isEmpty then (none, 0)
  else if (lastE buf).1 < s then (none, 0)
  else if idxA buf s = idxB buf s ∧ s = (entryA buf s).1 then
    (some (entryA buf s).2.1, (entryA buf s).2.2)
  else if (entryA buf s).1 ≤ s ∧ s ≤ (entryB buf s).1 then
    (some (pinterp ((s - (entryA buf s).1) / ((entryB buf s).1 - (entryA buf s).1))
        (entryA buf s).2.1 (entryB buf s).2.1), (entryA buf s).2.2)
  else (none, 0)

/-- The outputs of `getPoseAndIMU`: the pose out-parameter (`none` = null
`Transform`), `poseConfidence`, the IMU out-parameter (`none` = empty `IMU`,
`some (gyro, acc)` otherwise), and the `imuGlobalSyncWarningShown_` latch
after the call. -/
structure GPOut (P : Type) where
  pose : Option P
  poseConfidence : Nat
  imu : Option (Vec3 × Vec3)
  shown : Bool

/-- `CameraRealSense2::getPoseAndIMU` (lines 230-461): null/zero/empty the
outputs; return immediately if the accelerometer or gyro buffer is empty;
interpolate the pose (best effort); interpolate acc, returning with the IMU
empty on failure; interpolate gyro likewise; otherwise assemble the IMU. -/
def getPoseAndIMU {P : Type} [Inhabited P] (pinterp : ℚ → P → P → P)
    (gts shown : Bool) (poseBuf : List (ℚ × P × Nat))
    (accBuf gyroBuf : List (ℚ × Vec3)) (stamp : ℚ) : GPOut P :=
  if accBuf.isEmpty || gyroBuf.isEmpty then ⟨none, 0, none, shown⟩
  else
    match (interpVec3 gts shown accBuf stamp).val with
    | none =>
      ⟨(interpPose pinterp poseBuf stamp).1, (interpPose pinterp poseBuf stamp).2,
        none, (interpVec3 gts shown accBuf stamp).shown⟩
    | some acc =>
      match (interpVec3 gts (interpVec3 gts shown accBuf stamp).shown gyroBuf stamp).val with
      | none =>
        ⟨(interpPose pinterp poseBuf stamp).1, (interpPose pinterp poseBuf stamp).2,
          none, (interpVec3 gts (interpVec3 gts shown accBuf stamp).shown gyroBuf stamp).shown⟩
      | some gyro =>
        ⟨(interpPose pinterp poseBuf stamp).1, (interpPose pinterp poseBuf stamp).2,
          some (gyro, acc),
          (interpVec3 gts (interpVec3 gts shown accBuf stamp).shown gyroBuf stamp).shown⟩

/-- One interpolation call of a warning-counting session: thread the
`imuGlobalSyncWarningShown_` latch and accumulate both warning counters. -/
def vecStep (gts : Bool) (buf : List (ℚ × Vec3)) (st : Bool × Nat × Nat)
    (s : ℚ) : Bool × Nat × Nat :=
  ((interpVec3 gts st.1 buf s).shown,
    st.2.1 + (interpVec3 gts st.1 buf s).warnSync,
    st.2.2 + (interpVec3 gts st.1 buf s).warnRestamp)

/-- A session of IMU interpolation calls against a fixed buffer: the
`imuGlobalSyncWarningShown_` latch starts `false` (reset in `init`, lines
476-477, and in the constructor) and is threaded through the calls; the two
desynchronization warning counters are accumulated. -/
def vecSession (gts : Bool) (buf : List (ℚ × Vec3)) (stamps : List ℚ) :
    Bool × Nat × Nat :=
  stamps.foldl (vecStep gts buf) (false, 0, 0)

/-- The clock-sanity check of `captureImage` (lines 1267-1281): if the
frameset stamp (seconds) is more than 1000000000 ahead of host time, warn
once (latched by `clockSyncWarningShown_`) and substitute host time. -/
def clockSanity (shown : Bool) (stamp now : ℚ) : ℚ × Bool × Nat :=
  if 1000000000 < stamp - now then (now, true, if shown then 0 else 1)
  else (stamp, shown, 0)

/-- A session of clock-sanity checks on (stamp, host-time) pairs; the
`clockSyncWarningShown_` latch starts `false` (constructor / `init` line
476) and is threaded; warnings are counted. -/
def clockSession (events : List (ℚ × ℚ)) : Bool × Nat :=
  events.foldl
    (fun st e =>
      let o := clockSanity st.1 e.1 e.2
      (o.2.1, st.2 + o.2.2))
    (false, 0)

/-- `desiredFramesetSize` (lines 1191-1193): 2 normally, 3 when the L500
with global time sync adds the extra synchronized stream. -/
def desiredFramesetSize (isL500 gts : Bool) : Nat :=
  if isL500 && gts then 3 else 2

/-- The retry loop of `captureImage` (lines 1194-1198): while the frameset
size differs from the desired size and the 2-second deadline has not
elapsed, fetch another frameset.  `first` is the frameset in hand, `retries`
the framesets the syncer delivers before the deadline. -/
def retryLoop (desired : Nat) : Nat → List Nat → Nat
  | first, [] => first
  | first, s :: rest => if first = desired then first else retryLoop desired s rest

/-- The aggregation decision of `captureImage` (lines 1194-1199, 1419-1422):
after the retry loop, a frameset of the desired size is processed into a
record; any other size is discarded with the "Missing frames" error and no
record is produced (`none`). -/
def captureOutcome (isL500 gts : Bool) (first : Nat) (retries : List Nat) :
    Option Nat :=
  let final := retryLoop (desiredFramesetSize isL500 gts) first retries
  if final = desiredFramesetSize isL500 gts then some final else none

/-- The representative-timestamp fold of `captureImage` (lines 1208-1215):
start from `frameset.get_timestamp()` and take every constituent frame's
timestamp that is smaller. -/
def framesetStamp (framesetTs : ℚ) (frameTs : List ℚ) : ℚ :=
  frameTs.foldl (fun s t => if t < s then t else s) framesetTs

/-- The representative timestamp of a non-empty frameset.  Modelled from the
external collaborator (librealsense): a composite frameset's
`get_timestamp()` is the timestamp of one of its constituent frames (its
first), so the fold is seeded with the head frame's timestamp. -/
def repStamp (frameTs : List ℚ) : ℚ :=
  framesetStamp frameTs.headI frameTs

end RS2

namespace RS2

lemma mapInsert_append {V : Type} (buf : List (ℚ × V)) (k : ℚ) (v : V)
    (h : ∀ e ∈ buf, e.1 < k) : mapInsert buf k v = buf ++ [(k, v)] := by
  induction buf with
  | nil => rfl
  | cons e rest ih =>
    have he : e.1 < k := h e (List.mem_cons_self e rest)
    rw [mapInsert, if_neg (lt_asymm he), if_neg he.ne',
      ih (fun x hx => h x (List.mem_cons_of_mem e hx)), List.cons_append]

lemma mapInsert_length_le {V : Type} (buf : List (ℚ × V)) (k : ℚ) (v : V) :
    (mapInsert buf k v).length ≤ buf.length + 1 := by
  induction buf with
  | nil => simp [mapInsert]
  | cons e rest ih =>
    rw [mapInsert]
    split
    · simp
    · split
      · simp
      · simpa using Nat.succ_le_succ ih

lemma ingest_length_le {V : Type} (buf : List (ℚ × V)) (k : ℚ) (v : V)
    (h : buf.length ≤ 1000) : (ingest buf k v).length ≤ 1000 := by
  have hm := mapInsert_length_le buf k v
  unfold ingest
  split
  · rw [List.length_tail]; omega
  · omega

lemma ingestAll_fresh {V : Type} (l : List (ℚ × V))
    (h : l.Pairwise (fun a b => a.1 < b.1)) :
    ingestAll l = l.drop (l.length - 1000) := by
  induction l using List.reverseRecOn with
  | nil => simp [ingestAll]
  | append_singleton l x ih =>
    rw [List.pairwise_append] at h
    obtain ⟨hl, -, hlt⟩ := h
    have hstep : ingestAll (l ++ [x]) = ingest (ingestAll l) x.1 x.2 := by
      rw [ingestAll, List.foldl_append]
      rfl
    rw [hstep, ih hl]
    have hsub : ∀ e ∈ l.drop (l.length - 1000), e.1 < x.1 :=
      fun e he => hlt e (List.mem_of_mem_drop he) x (List.mem_cons_self x [])
    have hmi : mapInsert (l.drop (l.length - 1000)) x.1 x.2
        = l.drop (l.length - 1000) ++ [x] := by
      rw [mapInsert_append _ _ _ hsub, Prod.mk.eta]
    have hlen : (l.drop (l.length - 1000)).length = l.length - (l.length - 1000) :=
      List.length_drop _ _
    have hlapp : (l ++ [x]).length = l.length + 1 := by
      rw [List.length_append, List.length_singleton]
    rcases Nat.lt_or_ge l.length 1000 with hsm | hbig
    · have hd0 : l.length - 1000 = 0 := by omega
      have hd0' : (l ++ [x]).length - 1000 = 0 := by omega
      rw [hd0', List.drop_zero]
      rw [hd0, List.drop_zero] at hmi ⊢
      unfold ingest
      rw [hmi, if_neg (by rw [hlapp]; omega)]
    · have h1000 : (l.drop (l.length - 1000)).length = 1000 := by omega
      have hne : l.drop (l.length - 1000) ≠ [] := by
        intro hn; rw [hn] at h1000; simp at h1000
      have htl : (l.drop (l.length - 1000) ++ [x]).tail
          = (l.drop (l.length - 1000)).tail ++ [x] := by
        rcases hd : l.drop (l.length - 1000) with _ | ⟨a, as⟩
        · exact absurd hd hne
        · rfl
      unfold ingest
      rw [hmi, if_pos (by rw [List.length_append, h1000, List.length_singleton]; omega),
        htl, List.tail_drop]
      have harith : (l ++ [x]).length - 1000 = l.length - 1000 + 1 := by omega
      rw [harith, List.drop_append_of_le_length (by omega)]

/-- C3: per-stream buffers (gyro, accel, pose) never exceed 1000 entries
after an ingest callback, each overflow evicts exactly the single
smallest-timestamp entry, and after a session of fresh strictly-increasing
timestamped inserts only the most recent 1000 samples remain (the oldest
`length - 1000` are absent). -/
theorem c3_buffer_bounded_eviction :
    (∀ (buf : List (ℚ × Vec3)) (k : ℚ) (v : Vec3),
        buf.length ≤ 1000 → (ingest buf k v).length ≤ 1000)
    ∧ (∀ (l : List (ℚ × Vec3)), l.Pairwise (fun a b => a.1 < b.1) →
        ingestAll l = l.drop (l.length - 1000) ∧ (ingestAll l).length ≤ 1000) := by
  refine ⟨fun buf k v h => ingest_length_le buf k v h, fun l hl => ?_⟩
  refine ⟨ingestAll_fresh l hl, ?_⟩
  rw [ingestAll_fresh l hl, List.length_drop]
  omega

/-- Witness for C3 at concrete inputs: a one-entry buffer stays within
capacity after an ingest, and a fresh two-insert session retains both
samples. -/
theorem c3_buffer_bounded_eviction_witness :
    (([((0:ℚ), ((0:ℚ), 0, 0))] : List (ℚ × Vec3)).length ≤ 1000
      ∧ (ingest [((0:ℚ), ((0:ℚ), 0, 0))] 1 (1, 1, 1)).length ≤ 1000)
    ∧ (([((0:ℚ), ((0:ℚ), 0, 0)), (1, (1, 1, 1))] : List (ℚ × Vec3)).Pairwise
        (fun a b => a.1 < b.1)
      ∧ ingestAll [((0:ℚ), ((0:ℚ), 0, 0)), (1, (1, 1, 1))]
          = ([((0:ℚ), ((0:ℚ), 0, 0)), (1, (1, 1, 1))] : List (ℚ × Vec3)).drop
              (([((0:ℚ), ((0:ℚ), 0, 0)), (1, (1, 1, 1))] : List (ℚ × Vec3)).length - 1000)) :=
  ⟨⟨by decide, c3_buffer_bounded_eviction.1 [((0:ℚ), ((0:ℚ), 0, 0))] 1 (1, 1, 1) (by decide)⟩,
    ⟨by decide,
      (c3_buffer_bounded_eviction.2 [((0:ℚ), ((0:ℚ), 0, 0)), (1, (1, 1, 1))] (by decide)).1⟩⟩

end RS2

namespace RS2

lemma lastE_eq_getElem {V : Type} [Inhabited V] (buf : List (ℚ × V))
    (h : buf.length - 1 < buf.length) : lastE buf = buf[buf.length - 1] := by
  rw [lastE, List.getD_eq_getElem?_getD, List.getElem?_eq_getElem h, Option.getD_some]

lemma length_pred_lt {V : Type} (buf : List (ℚ × V)) (h : buf ≠ []) :
    buf.length - 1 < buf.length := by
  cases buf with
  | nil => exact absurd rfl h
  | cons a as => simp

lemma lastE_mem {V : Type} [Inhabited V] (buf : List (ℚ × V)) (h : buf ≠ []) :
    lastE buf ∈ buf := by
  rw [lastE_eq_getElem buf (length_pred_lt buf h)]
  exact List.getElem_mem _

lemma before_earliest_facts {V : Type} [Inhabited V] (hd : ℚ × V) (tl : List (ℚ × V))
    (s : ℚ) (hall : ∀ e ∈ hd :: tl, s < e.1) :
    idxA (hd :: tl) s = 0 ∧ idxB (hd :: tl) s = 0
    ∧ entryA (hd :: tl) s = hd ∧ entryB (hd :: tl) s = hd
    ∧ ¬ (lastE (hd :: tl)).1 < s := by
  have hhd : s < hd.1 := hall hd (List.mem_cons_self hd tl)
  have hlb : lowerBoundIdx (hd :: tl) s = 0 := by
    rw [lowerBoundIdx, List.findIdx_cons]
    have : decide (s ≤ hd.1) = true := by rw [decide_eq_true_eq]; exact le_of_lt hhd
    rw [this]
    rfl
  have hA : idxA (hd :: tl) s = 0 := by rw [idxA, hlb]; simp
  have hB : idxB (hd :: tl) s = 0 := by
    rw [idxB, hlb, if_neg]
    simp
  refine ⟨hA, hB, ?_, ?_, ?_⟩
  · rw [entryA, hA]; rfl
  · rw [entryB, hB]; rfl
  · exact lt_asymm (hall _ (lastE_mem _ (List.cons_ne_nil hd tl)))

lemma framesetStamp_cons (init t : ℚ) (ts : List ℚ) :
    framesetStamp init (t :: ts) = framesetStamp (if t < init then t else init) ts := rfl

lemma framesetStamp_le (l : List ℚ) :
    ∀ init : ℚ, framesetStamp init l ≤ init ∧ ∀ t ∈ l, framesetStamp init l ≤ t := by
  induction l with
  | nil => exact fun init => ⟨le_refl _, by simp⟩
  | cons t ts ih =>
    intro init
    rw [framesetStamp_cons]
    obtain ⟨h1, h2⟩ := ih (if t < init then t else init)
    have hle_init : (if t < init then t else init) ≤ init := by
      split
      · exact le_of_lt (by assumption)
      · exact le_refl _
    have hle_t : (if t < init then t else init) ≤ t := by
      split
      · exact le_refl _
      · exact le_of_not_lt (by assumption)
    refine ⟨le_trans h1 hle_init, ?_⟩
    intro u hu
    rcases List.mem_cons.mp hu with rfl | hu'
    · exact le_trans h1 hle_t
    · exact h2 u hu'

lemma framesetStamp_mem (l : List ℚ) :
    ∀ init : ℚ, framesetStamp init l = init ∨ framesetStamp init l ∈ l := by
  induction l with
  | nil => exact fun init => Or.inl rfl
  | cons t ts ih =>
    intro init
    rw [framesetStamp_cons]
    rcases ih (if t < init then t else init) with h | h
    · rw [h]
      split
      · exact Or.inr (List.mem_cons_self t ts)
      · exact Or.inl rfl
    · exact Or.inr (List.mem_cons_of_mem t h)

/-- C7: the representative timestamp of an aggregated frame set is the
minimum of the constituent frames' timestamps: it is one of them and is a
lower bound of all of them. -/
theorem c7_representative_timestamp_min (frames : List ℚ) (h : frames ≠ []) :
    repStamp frames ∈ frames ∧ ∀ t ∈ frames, repStamp frames ≤ t := by
  constructor
  · rcases framesetStamp_mem frames frames.headI with hm | hm
    · rw [repStamp, hm]
      cases frames with
      | nil => exact absurd rfl h
      | cons a as => exact List.mem_cons_self a as
    · exact hm
  · exact (framesetStamp_le frames frames.headI).2

/-- Witness for C7: a frame set with color at t=500 and depth at t=503
aggregates with representative timestamp 500 (the minimum). -/
theorem c7_representative_timestamp_min_witness :
    (([500, 503] : List ℚ) ≠ [])
    ∧ (repStamp [500, 503] ∈ ([500, 503] : List ℚ)
        ∧ ∀ t ∈ ([500, 503] : List ℚ), repStamp [500, 503] ≤ t)
    ∧ repStamp [500, 503] = 500 :=
  ⟨by decide, c7_representative_timestamp_min [500, 503] (by decide), by decide⟩

lemma retryLoop_mem (d : Nat) (first : Nat) (retries : List Nat) :
    retryLoop d first retries ∈ first :: retries := by
  induction retries generalizing first with
  | nil => exact List.mem_cons_self first []
  | cons s rest ih =>
    rw [retryLoop]
    split
    · exact List.mem_cons_self first _
    · exact List.mem_cons_of_mem first (ih s)

/-- C8: frame aggregation never emits a record from a frame set whose size
differs from the mode-dependent expected size (2 normally, 3 for the L500
extra synchronized stream mode); if every set seen up to the retry deadline
is wrong-sized, the outcome is the "missing frames" discard (`none`). -/
theorem c8_aggregation_completeness (isL500 gts : Bool) (first : Nat)
    (retries : List Nat) :
    (∀ n, captureOutcome isL500 gts first retries = some n →
        n = desiredFramesetSize isL500 gts)
    ∧ ((∀ s ∈ first :: retries, s ≠ desiredFramesetSize isL500 gts) →
        captureOutcome isL500 gts first retries = none) := by
  constructor
  · intro n hn
    rw [captureOutcome] at hn
    by_cases hf : retryLoop (desiredFramesetSize isL500 gts) first retries
        = desiredFramesetSize isL500 gts
    · rw [if_pos hf] at hn
      injection hn with hn
      rw [← hn, hf]
    · rw [if_neg hf] at hn
      exact absurd hn (by simp)
  · intro hall
    rw [captureOutcome,
      if_neg (hall _ (retryLoop_mem (desiredFramesetSize isL500 gts) first retries))]

/-- Witness for C8: a session whose only frame set has size 3 in normal
mode (expected size 2) is discarded. -/
theorem c8_aggregation_completeness_witness :
    (∀ s ∈ ([3] : List Nat), s ≠ desiredFramesetSize false false)
    ∧ captureOutcome false false 3 [] = none :=
  ⟨by decide, (c8_aggregation_completeness false false 3 []).2 (by decide)⟩

lemma clockFold_le (events : List (ℚ × ℚ)) :
    ∀ (b : Bool) (c : Nat),
      (events.foldl
        (fun st e =>
          let o := clockSanity st.1 e.1 e.2
          (o.2.1, st.2 + o.2.2)) (b, c)).2 ≤ c + (if b then 0 else 1) := by
  induction events with
  | nil =>
    intro b c
    simp
  | cons e rest ih =>
    intro b c
    rw [List.foldl_cons]
    have step := ih (clockSanity b e.1 e.2).2.1 (c + (clockSanity b e.1 e.2).2.2)
    refine le_trans step ?_
    rw [clockSanity]
    split
    · simp
    · simp

/-- C9: an aggregated frame whose stamp exceeds host time by more than the
10^9 tolerance has host time substituted (with the latch set); a frame
within tolerance keeps its own stamp and latch; and over any session the
clock-anomaly warning is emitted at most once. -/
theorem c9_clock_anomaly (shown : Bool) (stamp now : ℚ) :
    (1000000000 < stamp - now →
      (clockSanity shown stamp now).1 = now
        ∧ (clockSanity shown stamp now).2.1 = true)
    ∧ (¬ 1000000000 < stamp - now →
      (clockSanity shown stamp now).1 = stamp
        ∧ (clockSanity shown stamp now).2.1 = shown)
    ∧ ∀ events : List (ℚ × ℚ), (clockSession events).2 ≤ 1 := by
  refine ⟨fun h => ?_, fun h => ?_, fun events => ?_⟩
  · rw [clockSanity, if_pos h]
    exact ⟨rfl, rfl⟩
  · rw [clockSanity, if_neg h]
    exact ⟨rfl, rfl⟩
  · have := clockFold_le events false 0
    rw [clockSession]
    simpa using this

/-- Witness for C9: a frame 2*10^9 in the future is re-stamped to host time
and a session of two such frames warns at most once. -/
theorem c9_clock_anomaly_witness :
    ((1000000000 : ℚ) < 2000000000 - 0)
    ∧ ((clockSanity false 2000000000 0).1 = 0
        ∧ (clockSanity false 2000000000 0).2.1 = true)
    ∧ (clockSession [(2000000000, 0), (2000000000, 0)]).2 ≤ 1 :=
  ⟨by norm_num,
    (c9_clock_anomaly false 2000000000 0).1 (by norm_num),
    (c9_clock_anomaly false 2000000000 0).2.2 [(2000000000, 0), (2000000000, 0)]⟩

/-- C10: with an empty accelerometer buffer or an empty gyro buffer,
`getPoseAndIMU` returns immediately with a null pose, zero confidence and an
empty IMU, whatever the pose buffer holds. -/
theorem c10_empty_imu_buffer_gates_pose {P : Type} [Inhabited P]
    (pinterp : ℚ → P → P → P) (gts shown : Bool) (poseBuf : List (ℚ × P × Nat))
    (buf : List (ℚ × Vec3)) (stamp : ℚ) :
    getPoseAndIMU pinterp gts shown poseBuf [] buf stamp = ⟨none, 0, none, shown⟩
    ∧ getPoseAndIMU pinterp gts shown poseBuf buf [] stamp = ⟨none, 0, none, shown⟩ := by
  constructor
  · rw [getPoseAndIMU, if_pos]
    simp
  · rw [getPoseAndIMU, if_pos]
    simp

end RS2

namespace RS2

/-- C1 counterexample: with strict time sync DISABLED (lenient mode) a
target after the latest stored sample still yields an empty IMU: the code
returns at lines 310-318 / 391-399 before the lenient fallback is
reachable, so no nearest-neighbor hold happens on this path. -/
theorem c1_counterexample :
    (lastE [((1 : ℚ), ((2 : ℚ), 3, 4))]).1 < 2
    ∧ (getPoseAndIMU (fun _ a _ => a : ℚ → ℚ → ℚ → ℚ) false false []
        [((1 : ℚ), ((2 : ℚ), 3, 4))] [((1 : ℚ), ((2 : ℚ), 3, 4))] 2).imu = none :=
  ⟨by decide, by decide⟩

/-- C1 (amended): an interpolation call whose target is still greater than
the stream's latest stored timestamp after the bounded wait fails with an
empty result in BOTH strict and lenient modes, leaving the warning latch
unchanged; the lenient nearest-neighbor hold never applies on this path. -/
theorem c1_after_latest_always_unavailable {P : Type} [Inhabited P]
    (pinterp : ℚ → P → P → P) (gts shown : Bool) (poseBuf : List (ℚ × P × Nat))
    (accBuf gyroBuf : List (ℚ × Vec3)) (s : ℚ)
    (hne : accBuf ≠ []) (hlt : (lastE accBuf).1 < s) :
    (interpVec3 gts shown accBuf s).val = none
    ∧ (interpVec3 gts shown accBuf s).shown = shown
    ∧ (gyroBuf ≠ [] →
        (getPoseAndIMU pinterp gts shown poseBuf accBuf gyroBuf s).imu = none) := by
  have hie : accBuf.isEmpty = false := by
    cases accBuf with
    | nil => exact absurd rfl hne
    | cons a as => rfl
  have h1 : interpVec3 gts shown accBuf s = ⟨none, shown, 0, 0⟩ := by
    unfold interpVec3
    rw [if_neg (by simp [hie]), if_pos hlt]
  refine ⟨by rw [h1], by rw [h1], fun hg => ?_⟩
  have hig : gyroBuf.isEmpty = false := by
    cases gyroBuf with
    | nil => exact absurd rfl hg
    | cons a as => rfl
  unfold getPoseAndIMU
  rw [if_neg (by simp [hie, hig]), h1]

/-- Witness for the amended C1 at a concrete input: one sample at t=1,
target t=2, lenient mode. -/
theorem c1_after_latest_always_unavailable_witness :
    (interpVec3 false false [((1 : ℚ), ((2 : ℚ), 3, 4))] 2).val = none
    ∧ (interpVec3 false false [((1 : ℚ), ((2 : ℚ), 3, 4))] 2).shown = false
    ∧ (getPoseAndIMU (fun _ a _ => a : ℚ → ℚ → ℚ → ℚ) false false []
        [((1 : ℚ), ((2 : ℚ), 3, 4))] [((1 : ℚ), ((2 : ℚ), 3, 4))] 2).imu = none := by
  have h := c1_after_latest_always_unavailable (fun _ a _ => a : ℚ → ℚ → ℚ → ℚ)
    false false [] [((1 : ℚ), ((2 : ℚ), 3, 4))] [((1 : ℚ), ((2 : ℚ), 3, 4))] 2
    (by decide) (by decide)
  exact ⟨h.1, h.2.1, h.2.2 (by decide)⟩

/-- C2 counterexample: in lenient mode a target strictly before the
earliest stored sample does NOT fail: the desynchronization branch returns
the most recent (`rbegin()`) sample's value for both IMU streams, so the
call produces a non-empty IMU. -/
theorem c2_counterexample :
    (getPoseAndIMU (fun _ a _ => a : ℚ → ℚ → ℚ → ℚ) false false []
        [((1 : ℚ), ((5 : ℚ), 6, 7)), (2, (8, 9, 10))]
        [((1 : ℚ), ((5 : ℚ), 6, 7)), (2, (8, 9, 10))] 0).imu
      = some ((8, 9, 10), (8, 9, 10)) := by decide

/-- C2 (amended): a target strictly before the earliest stored sample fails
with the output left empty when strict time sync is enabled — and the pose
is left null with zero confidence in every mode — but with strict time sync
disabled the IMU blocks return the most recent stored sample's value and
set the warning latch. -/
theorem c2_before_earliest {P : Type} [Inhabited P] (pinterp : ℚ → P → P → P)
    (shown : Bool) (buf : List (ℚ × Vec3)) (pbuf : List (ℚ × P × Nat)) (s : ℚ)
    (hne : buf ≠ []) (hall : ∀ e ∈ buf, s < e.1) (hallp : ∀ e ∈ pbuf, s < e.1) :
    (interpVec3 true shown buf s).val = none
    ∧ (interpVec3 false shown buf s).val = some (lastE buf).2
    ∧ (interpVec3 false shown buf s).shown = true
    ∧ interpPose pinterp pbuf s = (none, 0) := by
  cases buf with
  | nil => exact absurd rfl hne
  | cons hd tl =>
    obtain ⟨hA, hB, hEA, hEB, hnlt⟩ := before_earliest_facts hd tl s hall
    have hhd : s < hd.1 := hall hd (List.mem_cons_self hd tl)
    have hnex : ¬ (idxA (hd :: tl) s = idxB (hd :: tl) s
        ∧ s = (entryA (hd :: tl) s).1) := by
      rintro ⟨-, he⟩
      rw [hEA] at he
      exact absurd he (ne_of_lt hhd)
    have hnint : ¬ ((entryA (hd :: tl) s).1 ≤ s ∧ s ≤ (entryB (hd :: tl) s).1) := by
      rintro ⟨hle, -⟩
      rw [hEA] at hle
      exact absurd hle (not_le.mpr hhd)
    refine ⟨?_, ?_, ?_, ?_⟩
    · unfold interpVec3
      rw [if_neg (by simp), if_neg hnlt, if_neg hnex, if_neg hnint, if_pos rfl]
    · unfold interpVec3
      rw [if_neg (by simp), if_neg hnlt, if_neg hnex, if_neg hnint,
        if_neg (by simp)]
    · unfold interpVec3
      rw [if_neg (by simp), if_neg hnlt, if_neg hnex, if_neg hnint,
        if_neg (by simp)]
    · cases pbuf with
      | nil => rfl
      | cons phd ptl =>
        obtain ⟨pA, pB, pEA, pEB, pnlt⟩ := before_earliest_facts phd ptl s hallp
        have phd1 : s < phd.1 := hallp phd (List.mem_cons_self phd ptl)
        have pnex : ¬ (idxA (phd :: ptl) s = idxB (phd :: ptl) s
            ∧ s = (entryA (phd :: ptl) s).1) := by
          rintro ⟨-, he⟩
          rw [pEA] at he
          exact absurd he (ne_of_lt phd1)
        have pnint : ¬ ((entryA (phd :: ptl) s).1 ≤ s
            ∧ s ≤ (entryB (phd :: ptl) s).1) := by
          rintro ⟨hle, -⟩
          rw [pEA] at hle
          exact absurd hle (not_le.mpr phd1)
        unfold interpPose
        rw [if_neg (by simp), if_neg pnlt, if_neg pnex, if_neg pnint]

/-- Witness for the amended C2 at a concrete input: samples at t=1 and t=2,
target t=0, both modes, with an empty pose buffer. -/
theorem c2_before_earliest_witness :
    (interpVec3 true false [((1 : ℚ), ((5 : ℚ), 6, 7)), (2, (8, 9, 10))] 0).val = none
    ∧ (interpVec3 false false [((1 : ℚ), ((5 : ℚ), 6, 7)), (2, (8, 9, 10))] 0).val
        = some (lastE [((1 : ℚ), ((5 : ℚ), 6, 7)), (2, (8, 9, 10))]).2
    ∧ (interpVec3 false false [((1 : ℚ), ((5 : ℚ), 6, 7)), (2, (8, 9, 10))] 0).shown = true
    ∧ interpPose (fun _ a _ => a : ℚ → ℚ → ℚ → ℚ) [] 0 = (none, 0) :=
  c2_before_earliest (fun _ a _ => a : ℚ → ℚ → ℚ → ℚ) false
    [((1 : ℚ), ((5 : ℚ), 6, 7)), (2, (8, 9, 10))] [] 0
    (by decide) (by decide) (by decide)

end RS2

namespace RS2

lemma lerp3_zero (a b : Vec3) : lerp3 0 a b = a := by
  rcases a with ⟨p, q, r⟩
  rcases b with ⟨x, y, z⟩
  rw [lerp3, Prod.mk.injEq, Prod.mk.injEq]
  refine ⟨by ring, by ring, by ring⟩

lemma lerp3_one (a b : Vec3) : lerp3 1 a b = b := by
  rcases a with ⟨p, q, r⟩
  rcases b with ⟨x, y, z⟩
  rw [lerp3, Prod.mk.injEq, Prod.mk.injEq]
  refine ⟨by ring, by ring, by ring⟩

/-- C4: for a timeline with two samples at `t0 < t1` and a target
`t0 + f*(t1-t0)` with `f ∈ [0,1]`, interpolation returns
`v0 + f*(v1 - v0)` component-wise, exactly, in both sync modes. -/
theorem c4_linearity (gts shown : Bool) (t0 t1 : ℚ) (v0 v1 : Vec3) (f : ℚ)
    (h01 : t0 < t1) (hf0 : 0 ≤ f) (hf1 : f ≤ 1) :
    (interpVec3 gts shown [(t0, v0), (t1, v1)] (t0 + f * (t1 - t0))).val
      = some (lerp3 f v0 v1) := by
  have hs1 : t0 + f * (t1 - t0) ≤ t1 := by nlinarith
  have hlast : lastE [(t0, v0), (t1, v1)] = (t1, v1) := rfl
  have hguard : ¬ (lastE [(t0, v0), (t1, v1)]).1 < t0 + f * (t1 - t0) := by
    rw [hlast]
    exact not_lt.mpr hs1
  rcases eq_or_lt_of_le hf0 with hf | hf
  · -- f = 0: the target coincides with the first sample and the exact-match
    -- branch fires
    subst hf
    have h0 : t0 + 0 * (t1 - t0) = t0 := by ring
    rw [h0] at hguard ⊢
    rw [lerp3_zero]
    have hlb : lowerBoundIdx [(t0, v0), (t1, v1)] t0 = 0 := by
      rw [lowerBoundIdx, List.findIdx_cons]
      rw [decide_eq_true (le_refl t0)]
      rfl
    have hA : idxA [(t0, v0), (t1, v1)] t0 = 0 := by
      unfold idxA
      rw [hlb]
      rfl
    have hB : idxB [(t0, v0), (t1, v1)] t0 = 0 := by
      unfold idxB
      rw [hlb]
      rfl
    have hEA : entryA [(t0, v0), (t1, v1)] t0 = (t0, v0) := by
      unfold entryA
      rw [hA]
      rfl
    unfold interpVec3
    rw [if_neg (by simp), if_neg hguard,
      if_pos ⟨by rw [hA, hB], by rw [hEA]⟩, hEA]
  · -- 0 < f: the target is strictly inside (or at the right end of) the
    -- bracket and the linear-interpolation branch fires
    have hs0 : t0 < t0 + f * (t1 - t0) := by nlinarith
    have hlb : lowerBoundIdx [(t0, v0), (t1, v1)] (t0 + f * (t1 - t0)) = 1 := by
      rw [lowerBoundIdx, List.findIdx_cons, List.findIdx_cons]
      rw [decide_eq_false (not_le.mpr hs0), decide_eq_true hs1]
      rfl
    have hA : idxA [(t0, v0), (t1, v1)] (t0 + f * (t1 - t0)) = 0 := by
      unfold idxA
      rw [hlb]
      rfl
    have hB : idxB [(t0, v0), (t1, v1)] (t0 + f * (t1 - t0)) = 1 := by
      unfold idxB
      rw [hlb]
      rfl
    have hEA : entryA [(t0, v0), (t1, v1)] (t0 + f * (t1 - t0)) = (t0, v0) := by
      unfold entryA
      rw [hA]
      rfl
    have hEB : entryB [(t0, v0), (t1, v1)] (t0 + f * (t1 - t0)) = (t1, v1) := by
      unfold entryB
      rw [hB]
      rfl
    have hnex : ¬ (idxA [(t0, v0), (t1, v1)] (t0 + f * (t1 - t0))
          = idxB [(t0, v0), (t1, v1)] (t0 + f * (t1 - t0))
        ∧ t0 + f * (t1 - t0)
          = (entryA [(t0, v0), (t1, v1)] (t0 + f * (t1 - t0))).1) := by
      rw [hA, hB]
      rintro ⟨hc, -⟩
      exact absurd hc (by decide)
    have hint : (entryA [(t0, v0), (t1, v1)] (t0 + f * (t1 - t0))).1
          ≤ t0 + f * (t1 - t0)
        ∧ t0 + f * (t1 - t0)
          ≤ (entryB [(t0, v0), (t1, v1)] (t0 + f * (t1 - t0))).1 :=
      ⟨by rw [hEA]; exact le_of_lt hs0, by rw [hEB]; exact hs1⟩
    have ht : (t0 + f * (t1 - t0)
          - (entryA [(t0, v0), (t1, v1)] (t0 + f * (t1 - t0))).1)
        / ((entryB [(t0, v0), (t1, v1)] (t0 + f * (t1 - t0))).1
          - (entryA [(t0, v0), (t1, v1)] (t0 + f * (t1 - t0))).1) = f := by
      rw [hEA, hEB]
      have hnum : t0 + f * (t1 - t0) - (t0, v0).1 = f * ((t1, v1).1 - (t0, v0).1) := by
        ring
      rw [hnum]
      exact mul_div_cancel_right₀ f (sub_ne_zero.mpr h01.ne')
    unfold interpVec3
    rw [if_neg (by simp), if_neg hguard, if_neg hnex, if_pos hint, ht, hEA, hEB]

/-- Witness for C4: the spec's example — samples (t=100, [0,0,1]) and
(t=200, [0,0,3]), target t=150 (f=1/2), result [0,0,2]. -/
theorem c4_linearity_witness :
    (interpVec3 false false [((100 : ℚ), ((0 : ℚ), 0, 1)), (200, (0, 0, 3))]
        (100 + (1 / 2) * (200 - 100))).val
      = some (lerp3 (1 / 2) ((0 : ℚ), 0, 1) (0, 0, 3))
    ∧ lerp3 (1 / 2) ((0 : ℚ), 0, 1) (0, 0, 3) = ((0 : ℚ), 0, 2) :=
  ⟨c4_linearity false false 100 200 ((0 : ℚ), 0, 1) (0, 0, 3) (1 / 2)
      (by norm_num) (by norm_num) (by norm_num),
    by rw [lerp3, Prod.mk.injEq, Prod.mk.injEq]; norm_num⟩

end RS2

namespace RS2

lemma getD_eq_getElem_of_lt {V : Type} [Inhabited V] (l : List (ℚ × V)) (i : Nat)
    (h : i < l.length) : l.getD i default = l[i] := by
  rw [List.getD_eq_getElem?_getD, List.getElem?_eq_getElem h, Option.getD_some]

/-- C5: interpolating at a timestamp equal to a stored sample's timestamp
returns that stored sample's value exactly (in the exact rational model of
the arithmetic: the t=1 bracket case cancels), in both sync modes, for
every strictly key-sorted timeline. -/
theorem c5_exact_match (gts shown : Bool) (buf : List (ℚ × Vec3)) (s : ℚ)
    (v : Vec3) (hsorted : buf.Pairwise (fun a b => a.1 < b.1))
    (hmem : (s, v) ∈ buf) :
    (interpVec3 gts shown buf s).val = some v := by
  have hne : buf ≠ [] := List.ne_nil_of_mem hmem
  have hie : buf.isEmpty = false := by
    cases buf with
    | nil => exact absurd rfl hne
    | cons a as => rfl
  have hmono := List.pairwise_iff_getElem.mp hsorted
  obtain ⟨m, hm, hgm⟩ := List.getElem_of_mem hmem
  have hex : ∃ x ∈ buf, (fun e => decide (s ≤ e.1)) x = true :=
    ⟨(s, v), hmem, by simp⟩
  have hilt : lowerBoundIdx buf s < buf.length :=
    List.findIdx_lt_length_of_exists hex
  have hgmD : buf.getD m default = (s, v) := by
    rw [getD_eq_getElem_of_lt buf m hm]
    exact hgm
  have hi_leD : s ≤ (buf.getD (lowerBoundIdx buf s) default).1 := by
    rw [getD_eq_getElem_of_lt buf _ hilt]
    have h1 := @List.findIdx_getElem (ℚ × Vec3) (fun e => decide (s ≤ e.1)) buf hilt
    exact of_decide_eq_true h1
  have hjiD : ∀ j, j < lowerBoundIdx buf s → (buf.getD j default).1 < s := by
    intro j hj
    have hjl : j < buf.length := lt_trans hj hilt
    rw [getD_eq_getElem_of_lt buf j hjl]
    have h2 : (fun e => decide (s ≤ e.1)) buf[j] = false :=
      List.not_of_lt_findIdx hj
    exact not_le.mp (of_decide_eq_false h2)
  have hmonoD : ∀ a b, a < b → b < buf.length →
      (buf.getD a default).1 < (buf.getD b default).1 := by
    intro a b hab hbl
    have hal : a < buf.length := lt_trans hab hbl
    rw [getD_eq_getElem_of_lt buf a hal, getD_eq_getElem_of_lt buf b hbl]
    exact hmono a b hal hbl hab
  have him : lowerBoundIdx buf s ≤ m := by
    by_contra hc
    push_neg at hc
    have h3 := hjiD m hc
    rw [hgmD] at h3
    exact lt_irrefl s h3
  have hieq : lowerBoundIdx buf s = m := by
    rcases eq_or_lt_of_le him with he | hlt2
    · exact he
    · exfalso
      have hx := hmonoD _ _ hlt2 hm
      rw [hgmD] at hx
      exact absurd hi_leD (not_le.mpr hx)
  subst hieq
  have hguard : ¬ (lastE buf).1 < s := by
    have hle : lowerBoundIdx buf s ≤ buf.length - 1 := by omega
    have hlastD : lastE buf = buf.getD (buf.length - 1) default := rfl
    rw [hlastD]
    rcases eq_or_lt_of_le hle with he | hlt2
    · rw [← he, hgmD]
      exact lt_irrefl s
    · have hx := hmonoD _ _ hlt2 (length_pred_lt buf hne)
      rw [hgmD] at hx
      exact lt_asymm hx
  rcases Nat.eq_zero_or_pos (lowerBoundIdx buf s) with hz | hpos
  · -- lower_bound is begin(): the exact-match branch fires
    have hA : idxA buf s = 0 := by
      unfold idxA
      rw [hz]
      rfl
    have hB : idxB buf s = 0 := by
      have hlen0 : 0 < buf.length := hz ▸ hilt
      unfold idxB
      rw [hz, if_neg (Nat.ne_of_lt hlen0)]
    have hEA : entryA buf s = (s, v) := by
      unfold entryA
      rw [hA, ← hz]
      exact hgmD
    unfold interpVec3
    rw [if_neg (by simp [hie]), if_neg hguard,
      if_pos ⟨by rw [hA, hB], by rw [hEA]⟩, hEA]
  · -- lower_bound has a predecessor: the bracket is (pred, exact key) and
    -- the interpolation factor is exactly 1
    have hA : idxA buf s = lowerBoundIdx buf s - 1 := by
      unfold idxA
      rw [if_neg (by omega)]
    have hB : idxB buf s = lowerBoundIdx buf s := by
      unfold idxB
      rw [if_neg (by omega)]
    have hnex : ¬ (idxA buf s = idxB buf s ∧ s = (entryA buf s).1) := by
      rw [hA, hB]
      rintro ⟨hc, -⟩
      omega
    have hEA : entryA buf s = buf.getD (lowerBoundIdx buf s - 1) default := by
      unfold entryA
      rw [hA]
    have hEB : entryB buf s = (s, v) := by
      unfold entryB
      rw [hB]
      exact hgmD
    have ha_lt : (buf.getD (lowerBoundIdx buf s - 1) default).1 < s :=
      hjiD _ (by omega)
    have hint : (entryA buf s).1 ≤ s ∧ s ≤ (entryB buf s).1 := by
      refine ⟨?_, ?_⟩
      · rw [hEA]
        exact le_of_lt ha_lt
      · rw [hEB]
    have ht : (s - (entryA buf s).1) / ((entryB buf s).1 - (entryA buf s).1) = 1 := by
      rw [hEA, hEB]
      exact div_self (sub_ne_zero.mpr (ne_of_gt ha_lt))
    unfold interpVec3
    rw [if_neg (by simp [hie]), if_neg hguard, if_neg hnex, if_pos hint, ht,
      lerp3_one, hEB]

/-- Witness for C5: a two-sample timeline queried exactly at its second
sample's timestamp returns that sample's value. -/
theorem c5_exact_match_witness :
    (interpVec3 true false [((1 : ℚ), ((5 : ℚ), 6, 7)), (2, (8, 9, 10))] 2).val
      = some ((8 : ℚ), 9, 10) :=
  c5_exact_match true false [((1 : ℚ), ((5 : ℚ), 6, 7)), (2, (8, 9, 10))] 2
    ((8 : ℚ), 9, 10) (by decide) (by decide)

end RS2

namespace RS2

lemma interpVec3_lenient_step (shown : Bool) (buf : List (ℚ × Vec3)) (s : ℚ) :
    ((interpVec3 false shown buf s).warnSync = 0
      ∧ (interpVec3 false shown buf s).warnRestamp = 0
      ∧ (interpVec3 false shown buf s).shown = shown)
    ∨ ((interpVec3 false shown buf s).warnSync = (if shown then 0 else 1)
      ∧ (interpVec3 false shown buf s).warnRestamp = (if shown then 0 else 1)
      ∧ (interpVec3 false shown buf s).shown = true) := by
  unfold interpVec3
  split
  · exact Or.inl ⟨rfl, rfl, rfl⟩
  · split
    · exact Or.inl ⟨rfl, rfl, rfl⟩
    · split
      · exact Or.inl ⟨rfl, rfl, rfl⟩
      · split
        · exact Or.inl ⟨rfl, rfl, rfl⟩
        · split
          · simp_all
          · exact Or.inr ⟨rfl, rfl, rfl⟩

lemma vecFold_le (buf : List (ℚ × Vec3)) (stamps : List ℚ) :
    ∀ st : Bool × Nat × Nat,
      ((stamps.foldl (vecStep false buf) st).2.1
        ≤ st.2.1 + (if st.1 then 0 else 1))
      ∧ ((stamps.foldl (vecStep false buf) st).2.2
        ≤ st.2.2 + (if st.1 then 0 else 1)) := by
  induction stamps with
  | nil =>
    intro st
    constructor <;> simp
  | cons s rest ih =>
    intro st
    rw [List.foldl_cons]
    have step := ih (vecStep false buf st s)
    have e1 : (vecStep false buf st s).2.1
        = st.2.1 + (interpVec3 false st.1 buf s).warnSync := rfl
    have e2 : (vecStep false buf st s).2.2
        = st.2.2 + (interpVec3 false st.1 buf s).warnRestamp := rfl
    have e3 : (vecStep false buf st s).1 = (interpVec3 false st.1 buf s).shown := rfl
    rw [e1, e2, e3] at step
    rcases interpVec3_lenient_step st.1 buf s with ⟨h1, h2, h3⟩ | ⟨h1, h2, h3⟩
    · rw [h1, h2, h3] at step
      constructor
      · exact le_trans step.1 (by omega)
      · exact le_trans step.2 (by omega)
    · rw [h1, h2, h3] at step
      constructor
      · refine le_trans step.1 ?_
        simp
      · refine le_trans step.2 ?_
        simp

/-- C6 counterexample: with strict time sync ENABLED, the cross-stream
desynchronization warning is not latched (the latch is only set on the
lenient path), so a session whose target falls before the earliest sample
twice emits the warning twice — more than once per session. -/
theorem c6_counterexample :
    (vecSession true [((1 : ℚ), ((5 : ℚ), 6, 7))] [0, 0]).2.1 = 2 := by decide

/-- C6 (amended): the gross-clock-mismatch warning fires at most once per
session in every mode (its latch is set whenever it fires), and each
cross-stream desynchronization message fires at most once per session when
strict time sync is disabled (only the lenient path sets that latch); with
strict sync enabled the desynchronization warning can recur.  Latches start
cleared, as after (re)initialization. -/
theorem c6_one_shot_warnings :
    (∀ events : List (ℚ × ℚ), (clockSession events).2 ≤ 1)
    ∧ ∀ (buf : List (ℚ × Vec3)) (stamps : List ℚ),
        (vecSession false buf stamps).2.1 ≤ 1
        ∧ (vecSession false buf stamps).2.2 ≤ 1 := by
  constructor
  · intro events
    have h := clockFold_le events false 0
    rw [clockSession]
    simpa using h
  · intro buf stamps
    have h := vecFold_le buf stamps (false, 0, 0)
    rw [vecSession]
    exact ⟨by simpa using h.1, by simpa using h.2⟩

end RS2
